import Mathlib

/-!
Verification development for the iceoryx variant-queue facade and the RouDi
process bookkeeping record.

The variant queue (`VariantQueue<T, Capacity>` selected by the runtime tag
`VariantQueueTypes`) is exercised by
`src/iceoryx_utils/test/moduletests/test_cxx_variant_queue.cpp`; its
implementation header `variant_queue.hpp` is not part of the sources, so the
queue semantics below are modelled from the specification (sections 2-4 and 8
of the design document), checked for consistency against the assertions of the
test file.  The process record is embedded directly from
`src/iceoryx_posh/source/roudi/process.cpp`.
-/

namespace Iceoryx

/-- Modelled from the spec: the closed Queue Kind enumeration
(`VariantQueueTypes` in `variant_queue.hpp`, absent from the sources).  The
test file iterates the tags `0 .. 5` (`numberOfQueueTypes = 6`) and names the
two blocking tags; the spec (section 3) lists lock-free SPSC/MPSC, the
overflow ("SOFI") family in SPSC/MPSC arity, and blocking SPSC/MPSC. -/
inductive VariantQueueTypes where
  | FiFo_SingleProducerSingleConsumer
  | SoFi_SingleProducerSingleConsumer
  | FiFo_MultiProducerSingleConsumer
  | SoFi_MultiProducerSingleConsumer
  | BlockingFiFo_SingleProducerSingleConsumer
  | BlockingFiFo_MultiProducerSingleConsumer
  deriving DecidableEq, Repr, Fintype

/-- Whether the tag selects an overflow ("SOFI") queue, whose push evicts the
oldest element instead of failing. -/
def VariantQueueTypes.isSofi : VariantQueueTypes → Bool
  | .SoFi_SingleProducerSingleConsumer => true
  | .SoFi_MultiProducerSingleConsumer => true
  | _ => false

/-- Whether the tag selects a blocking queue, whose push suspends the caller
when the queue is full. -/
def VariantQueueTypes.isBlocking : VariantQueueTypes → Bool
  | .BlockingFiFo_SingleProducerSingleConsumer => true
  | .BlockingFiFo_MultiProducerSingleConsumer => true
  | _ => false

/-- Modelled from the spec: the state of a variant-queue facade instance
(`VariantQueue<T, Capacity>`): the construction-time kind tag, the immutable
capacity, and the stored elements, oldest first (section 3: a queue instance
is parameterized by one element type and one fixed capacity). -/
structure VariantQueue (α : Type) where
  kind : VariantQueueTypes
  capacity : Nat
  elements : List α
  deriving Repr

/-- Modelled from the spec: construction of a facade from a kind tag and a
capacity; a freshly constructed queue holds no elements (section 8: a freshly
constructed queue reports `empty() == true` and `size() == 0`). -/
def VariantQueue.construct (α : Type) (kind : VariantQueueTypes) (capacity : Nat) :
    VariantQueue α :=
  { kind := kind, capacity := capacity, elements := [] }

/-- Modelled from the spec: `size()` is the number of stored elements. -/
def VariantQueue.size {α : Type} (q : VariantQueue α) : Nat :=
  q.elements.length

/-- Modelled from the spec: `empty()` holds when no element is stored. -/
def VariantQueue.empty {α : Type} (q : VariantQueue α) : Bool :=
  q.elements.isEmpty

/-- Modelled from the spec: the outcome a push reports to the caller.
The facade's C++ `push` returns `optional<T>`: `ok` stands for `nullopt`
(stored, nothing reported), `overflow x` for `some(x)` (for SOFI kinds `x` is
the evicted previously-oldest element, for lock-free kinds the rejected value
itself, returned to the caller), and `wouldBlock` for a blocking-kind push
that suspends the caller because the queue is full. -/
inductive PushResult (α : Type) where
  | ok : PushResult α
  | overflow (value : α) : PushResult α
  | wouldBlock : PushResult α
  deriving Repr

/-- Modelled from the spec: `push` of the facade, dispatching on the kind tag
(sections 4.1-4.5).  With free space every kind appends the value.  On a full
queue: SOFI kinds evict and return the oldest element (section 4.3), blocking
kinds suspend the caller (section 4.4), and lock-free kinds reject the push,
leaving the queue unchanged and handing the value back (section 4.1). -/
def VariantQueue.push {α : Type} (q : VariantQueue α) (v : α) :
    VariantQueue α × PushResult α :=
  if q.elements.length < q.capacity then
    ({ q with elements := q.elements ++ [v] }, PushResult.ok)
  else if q.kind.isSofi then
    match q.elements with
    | [] => (q, PushResult.overflow v)
    | oldest :: rest => ({ q with elements := rest ++ [v] }, PushResult.overflow oldest)
  else if q.kind.isBlocking then
    (q, PushResult.wouldBlock)
  else
    (q, PushResult.overflow v)

/-- Modelled from the spec: the non-blocking `pop` of the facade, returning
the oldest element when one is stored and no value on an empty queue (section
8 and the test `noPopWhenEmpty`, which expects a value-less pop on the empty
queue for every kind). -/
def VariantQueue.pop {α : Type} (q : VariantQueue α) : VariantQueue α × Option α :=
  match q.elements with
  | [] => (q, none)
  | x :: rest => ({ q with elements := rest }, some x)

/-- Push a list of values in order, keeping only the queue state. -/
def VariantQueue.pushAll {α : Type} : VariantQueue α → List α → VariantQueue α
  | q, [] => q
  | q, e :: es => VariantQueue.pushAll (q.push e).1 es

/-- Pop `n` times, returning the final state and the list of results. -/
def VariantQueue.popSeq {α : Type} : VariantQueue α → Nat → VariantQueue α × List (Option α)
  | q, 0 => (q, [])
  | q, n + 1 =>
    let step1 := q.pop
    let rest := VariantQueue.popSeq step1.1 n
    (rest.1, step1.2 :: rest.2)

/-- A single facade operation, for reasoning about every reachable state. -/
inductive QueueOp (α : Type) where
  | push (v : α)
  | pop
  deriving Repr

/-- State transition of one facade operation (results discarded). -/
def VariantQueue.step {α : Type} (q : VariantQueue α) : QueueOp α → VariantQueue α
  | QueueOp.push v => (q.push v).1
  | QueueOp.pop => q.pop.1

/-- Run a sequence of facade operations from a state. -/
def VariantQueue.run {α : Type} : VariantQueue α → List (QueueOp α) → VariantQueue α
  | q, [] => q
  | q, op :: ops => VariantQueue.run (q.step op) ops

/-- Queue state reached in the test `handlesOverflow` for the SOFI SPSC kind:
capacity 2, after the four pushes preceding the final overflow-checked push. -/
def sofiAfterFourPushes : VariantQueue Nat :=
  (VariantQueue.construct Nat VariantQueueTypes.SoFi_SingleProducerSingleConsumer 2).pushAll
    [14123, 24123, 22222, 33333]

/-- A full lock-free SPSC queue of capacity 2, as reached by two pushes in the
test `handlesOverflow` before its overflow-checked push. -/
def fifoFullOfTwo : VariantQueue Nat :=
  (VariantQueue.construct Nat VariantQueueTypes.FiFo_SingleProducerSingleConsumer 2).pushAll
    [14123, 24123]

/-- Error levels of the posh error handler (`ErrorLevel` in
`error_handling.hpp`), as used by `process.cpp`. -/
inductive ErrorLevel where
  | FATAL
  | SEVERE
  | MODERATE
  deriving DecidableEq, Repr

/-- The posh error code raised by `Process::sendViaIpcChannel` when the IPC
channel send fails. -/
inductive PoshError where
  | kPOSH__ROUDI_PROCESS_SEND_VIA_IPC_CHANNEL_FAILED
  deriving DecidableEq, Repr

/-- One invocation of the error handler: the error code and its level (the
callstack argument of `errorHandler` is always `nullptr` here and is
omitted). -/
structure ErrorReport where
  error : PoshError
  level : ErrorLevel
  deriving DecidableEq, Repr

/-- State of a `iox::roudi::Process` record
(`iceoryx_posh/source/roudi/process.cpp`).  The memory-manager reference is
abstracted to an identifier; the IPC channel is represented by the runtime
name it was constructed from; `m_sessionId` is an atomic field, read here
under sequential (no concurrent writer) semantics. -/
structure Process where
  m_pid : Nat
  m_ipcChannelRuntimeName : String
  m_timestamp : Nat
  m_payloadDataSegmentMemoryManager : Nat
  m_isMonitored : Bool
  m_dataSegmentId : Nat
  m_sessionId : Nat
  deriving DecidableEq, Repr

/-- The `Process` constructor: stores `pid`, constructs the IPC channel from
`name`, samples the clock (`BaseClock_t::now()`, passed here as `now`), and
stores the memory manager, the monitored flag, the data segment id and the
session id. -/
def Process.construct (name : String) (pid : Nat) (payloadDataSegmentMemoryManager : Nat)
    (isMonitored : Bool) (dataSegmentId : Nat) (sessionId : Nat) (now : Nat) : Process :=
  { m_pid := pid
    m_ipcChannelRuntimeName := name
    m_timestamp := now
    m_payloadDataSegmentMemoryManager := payloadDataSegmentMemoryManager
    m_isMonitored := isMonitored
    m_dataSegmentId := dataSegmentId
    m_sessionId := sessionId }

/-- `Process::getPid`. -/
def Process.getPid (p : Process) : Nat :=
  p.m_pid

/-- `Process::getName`: the runtime name of the IPC channel. -/
def Process.getName (p : Process) : String :=
  p.m_ipcChannelRuntimeName

/-- `Process::getSessionId`: a relaxed-ordering atomic load of `m_sessionId`,
which with no concurrent writer observes the stored field value. -/
def Process.getSessionId (p : Process) : Nat :=
  p.m_sessionId

/-- `Process::setTimestamp`: overwrites `m_timestamp` with the argument. -/
def Process.setTimestamp (p : Process) (timestamp : Nat) : Process :=
  { p with m_timestamp := timestamp }

/-- `Process::getTimestamp`. -/
def Process.getTimestamp (p : Process) : Nat :=
  p.m_timestamp

/-- `Process::getDataSegmentId`. -/
def Process.getDataSegmentId (p : Process) : Nat :=
  p.m_dataSegmentId

/-- `Process::isMonitored`. -/
def Process.isMonitored (p : Process) : Bool :=
  p.m_isMonitored

/-- `Process::sendViaIpcChannel`: the result of `m_ipcChannel.send(data)` is
passed as `sendSuccess` (the channel itself is outside the sources).  When the
send fails the function logs and invokes the error handler with
`kPOSH__ROUDI_PROCESS_SEND_VIA_IPC_CHANNEL_FAILED` at level `MODERATE`;
otherwise it reports nothing.  The function is total, modelling the `noexcept`
contract: no path throws. -/
def Process.sendViaIpcChannel (_p : Process) (sendSuccess : Bool) : Option ErrorReport :=
  if sendSuccess then
    none
  else
    some { error := PoshError.kPOSH__ROUDI_PROCESS_SEND_VIA_IPC_CHANNEL_FAILED
           level := ErrorLevel.MODERATE }

theorem push_of_lt {α : Type} (q : VariantQueue α) (v : α)
    (h : q.elements.length < q.capacity) :
    q.push v = ({ q with elements := q.elements ++ [v] }, PushResult.ok) := by
  simp [VariantQueue.push, h]

theorem push_full_sofi {α : Type} (q : VariantQueue α) (v old : α) (rest : List α)
    (hfull : ¬ q.elements.length < q.capacity) (hk : q.kind.isSofi = true)
    (helts : q.elements = old :: rest) :
    q.push v = ({ q with elements := rest ++ [v] }, PushResult.overflow old) := by
  rw [helts] at hfull
  simp only [List.length_cons] at hfull
  simp [VariantQueue.push, hfull, hk, helts]

theorem push_full_lockfree {α : Type} (q : VariantQueue α) (v : α)
    (hfull : ¬ q.elements.length < q.capacity) (hk : q.kind.isSofi = false)
    (hb : q.kind.isBlocking = false) :
    q.push v = (q, PushResult.overflow v) := by
  simp [VariantQueue.push, hfull, hk, hb]

theorem push_full_blocking {α : Type} (q : VariantQueue α) (v : α)
    (hfull : ¬ q.elements.length < q.capacity) (hk : q.kind.isSofi = false)
    (hb : q.kind.isBlocking = true) :
    q.push v = (q, PushResult.wouldBlock) := by
  simp [VariantQueue.push, hfull, hk, hb]

theorem pop_nil {α : Type} (q : VariantQueue α) (h : q.elements = []) :
    q.pop = (q, none) := by
  simp [VariantQueue.pop, h]

theorem pop_cons {α : Type} (q : VariantQueue α) (x : α) (xs : List α)
    (h : q.elements = x :: xs) :
    q.pop = ({ q with elements := xs }, some x) := by
  simp [VariantQueue.pop, h]

theorem push_fst_fields {α : Type} (q : VariantQueue α) (v : α) :
    (q.push v).1.capacity = q.capacity ∧ (q.push v).1.kind = q.kind := by
  by_cases hlt : q.elements.length < q.capacity
  · simp [push_of_lt q v hlt]
  · by_cases hk : q.kind.isSofi
    · cases helts : q.elements with
      | nil =>
        rw [helts] at hlt
        simp only [List.length_nil] at hlt
        simp [VariantQueue.push, hlt, hk, helts]
      | cons old rest => simp [push_full_sofi q v old rest hlt hk helts]
    · by_cases hb : q.kind.isBlocking
      · simp [push_full_blocking q v hlt (Bool.of_not_eq_true hk) hb]
      · simp [push_full_lockfree q v hlt (Bool.of_not_eq_true hk)
          (Bool.of_not_eq_true hb)]

theorem pop_fst_fields {α : Type} (q : VariantQueue α) :
    q.pop.1.capacity = q.capacity ∧ q.pop.1.kind = q.kind := by
  cases helts : q.elements with
  | nil => simp [pop_nil q helts]
  | cons x xs => simp [pop_cons q x xs helts]

theorem push_size_le {α : Type} (q : VariantQueue α) (v : α) (h : q.size ≤ q.capacity) :
    (q.push v).1.size ≤ q.capacity := by
  by_cases hlt : q.elements.length < q.capacity
  · simp [push_of_lt q v hlt, VariantQueue.size]
    omega
  · by_cases hk : q.kind.isSofi
    · cases helts : q.elements with
      | nil =>
        rw [helts] at hlt
        simp only [List.length_nil] at hlt
        simpa [VariantQueue.push, hlt, hk, helts] using h
      | cons old rest =>
        have h2 := h
        simp [VariantQueue.size, helts] at h2
        simp [push_full_sofi q v old rest hlt hk helts, VariantQueue.size]
        omega
    · by_cases hb : q.kind.isBlocking
      · simpa [push_full_blocking q v hlt (Bool.of_not_eq_true hk) hb] using h
      · simpa [push_full_lockfree q v hlt (Bool.of_not_eq_true hk)
          (Bool.of_not_eq_true hb)] using h

theorem push_size_succ {α : Type} (q : VariantQueue α) (v : α) :
    (q.push v).1.size ≤ q.size + 1 := by
  by_cases hlt : q.elements.length < q.capacity
  · simp [push_of_lt q v hlt, VariantQueue.size]
  · by_cases hk : q.kind.isSofi
    · cases helts : q.elements with
      | nil =>
        rw [helts] at hlt
        simp only [List.length_nil] at hlt
        simp [VariantQueue.push, hlt, hk, helts, VariantQueue.size]
      | cons old rest =>
        simp [push_full_sofi q v old rest hlt hk helts, VariantQueue.size, helts]
    · by_cases hb : q.kind.isBlocking
      · simp [push_full_blocking q v hlt (Bool.of_not_eq_true hk) hb]
      · simp [push_full_lockfree q v hlt (Bool.of_not_eq_true hk)
          (Bool.of_not_eq_true hb)]

theorem pop_size_le {α : Type} (q : VariantQueue α) : q.pop.1.size ≤ q.size := by
  cases helts : q.elements with
  | nil => simp [pop_nil q helts]
  | cons x xs => simp [pop_cons q x xs helts, VariantQueue.size, helts]

theorem pushAll_elements {α : Type} (es : List α) (q : VariantQueue α)
    (h : q.elements.length + es.length ≤ q.capacity) :
    (q.pushAll es).elements = q.elements ++ es
    ∧ (q.pushAll es).capacity = q.capacity ∧ (q.pushAll es).kind = q.kind := by
  induction es generalizing q with
  | nil => simp [VariantQueue.pushAll]
  | cons e es ih =>
    simp only [List.length_cons] at h
    have hlt : q.elements.length < q.capacity := by omega
    rw [VariantQueue.pushAll, push_of_lt q e hlt]
    obtain ⟨h1, h2, h3⟩ := ih { q with elements := q.elements ++ [e] } (by simp; omega)
    exact ⟨by simpa using h1, by simpa using h2, by simpa using h3⟩

theorem pushAll_size_le {α : Type} (es : List α) (q : VariantQueue α) :
    (q.pushAll es).size ≤ q.size + es.length := by
  induction es generalizing q with
  | nil => simp [VariantQueue.pushAll]
  | cons e es ih =>
    rw [VariantQueue.pushAll]
    have h1 := push_size_succ q e
    have h2 := ih (q.push e).1
    simp only [List.length_cons]
    omega

theorem popSeq_drain {α : Type} (es : List α) (q : VariantQueue α) (h : q.elements = es) :
    (q.popSeq es.length).2 = es.map some ∧ (q.popSeq es.length).1.elements = [] := by
  induction es generalizing q with
  | nil => simp [VariantQueue.popSeq, h]
  | cons x xs ih =>
    obtain ⟨h1, h2⟩ := ih { q with elements := xs } rfl
    simp [VariantQueue.popSeq, pop_cons q x xs h, h1, h2]

theorem popSeq_to_empty {α : Type} (n : Nat) (q : VariantQueue α)
    (h : q.elements.length ≤ n) :
    (q.popSeq n).1.elements = [] := by
  induction n generalizing q with
  | zero =>
    simp only [VariantQueue.popSeq]
    exact List.length_eq_zero.mp (Nat.le_zero.mp h)
  | succ n ih =>
    cases helts : q.elements with
    | nil =>
      simp only [VariantQueue.popSeq, pop_nil q helts]
      exact ih q (by simp [helts])
    | cons x xs =>
      simp only [VariantQueue.popSeq, pop_cons q x xs helts]
      refine ih { q with elements := xs } ?_
      have : q.elements.length = xs.length + 1 := by rw [helts]; rfl
      simp
      omega

theorem step_size_le {α : Type} (q : VariantQueue α) (op : QueueOp α)
    (h : q.size ≤ q.capacity) : (q.step op).size ≤ q.capacity := by
  cases op with
  | push v => exact push_size_le q v h
  | pop => exact le_trans (pop_size_le q) h

theorem step_capacity {α : Type} (q : VariantQueue α) (op : QueueOp α) :
    (q.step op).capacity = q.capacity := by
  cases op with
  | push v => exact (push_fst_fields q v).1
  | pop => exact (pop_fst_fields q).1

theorem run_invariant {α : Type} (ops : List (QueueOp α)) (q : VariantQueue α)
    (h : q.size ≤ q.capacity) :
    (q.run ops).size ≤ q.capacity ∧ (q.run ops).capacity = q.capacity := by
  induction ops generalizing q with
  | nil => exact ⟨h, rfl⟩
  | cons op ops ih =>
    have hstep : (q.step op).size ≤ (q.step op).capacity := by
      rw [step_capacity q op]
      exact step_size_le q op h
    have hrun := ih (q.step op) hstep
    rw [VariantQueue.run]
    constructor
    · have h1 := hrun.1
      rwa [step_capacity q op] at h1
    · rw [hrun.2, step_capacity q op]

/-- C1: for every non-overflow queue kind and every `n ≤ C`, pushing the
elements `e1..en` into a freshly constructed queue of capacity `C` and then
popping `n` times yields `e1..en` in exactly that order, each pop returning a
present value. -/
theorem fifo_order_preserved {α : Type} (k : VariantQueueTypes) (C : Nat) (es : List α)
    (_hk : k.isSofi = false) (hn : es.length ≤ C) :
    (((VariantQueue.construct α k C).pushAll es).popSeq es.length).2 = es.map some := by
  have h := pushAll_elements es (VariantQueue.construct α k C)
    (by simpa [VariantQueue.construct] using hn)
  have h2 := popSeq_drain es ((VariantQueue.construct α k C).pushAll es)
    (by simpa [VariantQueue.construct] using h.1)
  exact h2.1

theorem fifo_order_preserved_witness :
    VariantQueueTypes.FiFo_SingleProducerSingleConsumer.isSofi = false
  ∧ ([14123, 24123, 34123] : List Nat).length ≤ 5
  ∧ (((VariantQueue.construct Nat VariantQueueTypes.FiFo_SingleProducerSingleConsumer 5).pushAll
        [14123, 24123, 34123]).popSeq ([14123, 24123, 34123] : List Nat).length).2
      = ([14123, 24123, 34123] : List Nat).map some :=
  ⟨by decide, by decide,
    fifo_order_preserved VariantQueueTypes.FiFo_SingleProducerSingleConsumer 5
      [14123, 24123, 34123] (by decide) (by decide)⟩

/-- C2: for the overflow (SOFI) kinds, `push v` always succeeds in storing
`v` (it becomes the newest element); it returns the previously-oldest stored
element exactly when the queue was full (eviction), and reports nothing when
no eviction was needed. -/
theorem sofi_push_always_stores {α : Type} (q : VariantQueue α) (v : α)
    (hk : q.kind.isSofi = true) (hcap : 0 < q.capacity) (hwf : q.size ≤ q.capacity) :
    (q.push v).1.elements.getLast? = some v
  ∧ (q.size < q.capacity →
      (q.push v).2 = PushResult.ok ∧ (q.push v).1.elements = q.elements ++ [v])
  ∧ (q.size = q.capacity →
      ∃ old, q.elements.head? = some old
        ∧ (q.push v).2 = PushResult.overflow old
        ∧ (q.push v).1.elements = q.elements.tail ++ [v]) := by
  by_cases hlt : q.elements.length < q.capacity
  · rw [push_of_lt q v hlt]
    refine ⟨by simp, fun _ => ⟨rfl, by simp⟩, fun hfull => absurd hfull (Nat.ne_of_lt hlt)⟩
  · have hsz : q.size = q.capacity := le_antisymm hwf (Nat.le_of_not_lt hlt)
    cases helts : q.elements with
    | nil =>
      exfalso
      have hz : q.size = 0 := by simp [VariantQueue.size, helts]
      omega
    | cons old rest =>
      rw [push_full_sofi q v old rest hlt hk helts]
      refine ⟨by simp, fun hlt2 => absurd hsz (Nat.ne_of_lt hlt2),
        fun _ => ⟨old, by simp [helts], rfl, by simp [helts]⟩⟩

theorem sofi_push_always_stores_witness :
    sofiAfterFourPushes.kind.isSofi = true
  ∧ 0 < sofiAfterFourPushes.capacity
  ∧ sofiAfterFourPushes.size ≤ sofiAfterFourPushes.capacity
  ∧ ((sofiAfterFourPushes.push 667).1.elements.getLast? = some 667
  ∧ (sofiAfterFourPushes.size < sofiAfterFourPushes.capacity →
      (sofiAfterFourPushes.push 667).2 = PushResult.ok
      ∧ (sofiAfterFourPushes.push 667).1.elements = sofiAfterFourPushes.elements ++ [667])
  ∧ (sofiAfterFourPushes.size = sofiAfterFourPushes.capacity →
      ∃ old, sofiAfterFourPushes.elements.head? = some old
        ∧ (sofiAfterFourPushes.push 667).2 = PushResult.overflow old
        ∧ (sofiAfterFourPushes.push 667).1.elements
            = sofiAfterFourPushes.elements.tail ++ [667])) :=
  ⟨by decide, by decide, by decide,
    sofi_push_always_stores sofiAfterFourPushes 667 (by decide) (by decide) (by decide)⟩

/-- C3: for the lock-free (non-overflow, non-blocking) kinds, a push onto a
full queue reports overflow carrying the rejected value back to the caller,
and the queue state is completely unchanged by the rejected push. -/
theorem lockfree_push_rejected {α : Type} (q : VariantQueue α) (v : α)
    (hk : q.kind.isSofi = false) (hb : q.kind.isBlocking = false)
    (hfull : q.size = q.capacity) :
    (q.push v).2 = PushResult.overflow v ∧ (q.push v).1 = q := by
  have hlt : ¬ q.elements.length < q.capacity := by
    have hl : q.elements.length = q.capacity := hfull
    omega
  rw [push_full_lockfree q v hlt hk hb]
  exact ⟨rfl, rfl⟩

theorem lockfree_push_rejected_witness :
    fifoFullOfTwo.kind.isSofi = false
  ∧ fifoFullOfTwo.kind.isBlocking = false
  ∧ fifoFullOfTwo.size = fifoFullOfTwo.capacity
  ∧ ((fifoFullOfTwo.push 22222).2 = PushResult.overflow 22222
      ∧ (fifoFullOfTwo.push 22222).1 = fifoFullOfTwo) :=
  ⟨by decide, by decide, by decide,
    lockfree_push_rejected fifoFullOfTwo 22222 (by decide) (by decide) (by decide)⟩

/-- C4: for every kind and every sequence of operations from a fresh queue of
capacity `C`, the reached state has `size` in `[0, C]` (in particular no
sequence of pushes exceeds `C`), and `empty()` holds exactly when
`size() = 0`. -/
theorem size_invariant {α : Type} (k : VariantQueueTypes) (C : Nat)
    (ops : List (QueueOp α)) :
    ((VariantQueue.construct α k C).run ops).size ≤ C
  ∧ (((VariantQueue.construct α k C).run ops).empty = true
      ↔ ((VariantQueue.construct α k C).run ops).size = 0) := by
  have h := run_invariant ops (VariantQueue.construct α k C) (Nat.zero_le _)
  refine ⟨h.1, ?_⟩
  simp [VariantQueue.empty, VariantQueue.size, List.isEmpty_iff, List.length_eq_zero]

/-- C6: the Queue Kind enumeration is a closed set of exactly six selector
tags, and the freshly constructed facade instance of capacity `C` for each of
the six tags reports `empty() = true` and `size() = 0`. -/
theorem queue_kinds_closed_and_fresh_empty (α : Type) (k : VariantQueueTypes) (C : Nat) :
    Fintype.card VariantQueueTypes = 6
  ∧ (VariantQueue.construct α k C).empty = true
  ∧ (VariantQueue.construct α k C).size = 0 := by
  refine ⟨by decide, rfl, rfl⟩

/-- C7: for every queue kind, a non-blocking pop on the freshly constructed
(empty) queue yields no value, and after pushing any `k` elements and popping
`k` times, the next pop also yields no value. -/
theorem pop_empty_yields_none {α : Type} (k : VariantQueueTypes) (C : Nat) (es : List α) :
    ((VariantQueue.construct α k C).pop).2 = none
  ∧ ((((VariantQueue.construct α k C).pushAll es).popSeq es.length).1.pop).2 = none := by
  constructor
  · rw [pop_nil (VariantQueue.construct α k C) rfl]
  · have h1 : ((VariantQueue.construct α k C).pushAll es).elements.length ≤ es.length := by
      have h := pushAll_size_le es (VariantQueue.construct α k C)
      simpa [VariantQueue.size, VariantQueue.construct] using h
    have h2 := popSeq_to_empty es.length _ h1
    rw [pop_nil _ h2]

/-- C8: a `Process` constructed with a given session identifier reports that
identifier from `getSessionId` (the relaxed atomic load of the field set at
construction, observed with no concurrent writer). -/
theorem getSessionId_returns_ctor_arg (name : String) (pid payloadMm : Nat)
    (isMonitored : Bool) (dataSegmentId sessionId now : Nat) :
    (Process.construct name pid payloadMm isMonitored dataSegmentId
        sessionId now).getSessionId = sessionId :=
  rfl

/-- C9: after `setTimestamp t`, `getTimestamp` returns `t`, and the pid, data
segment id, monitored flag, session id (and runtime name) observed through the
other getters are unchanged. -/
theorem setTimestamp_sets_and_frames (p : Process) (t : Nat) :
    (p.setTimestamp t).getTimestamp = t
  ∧ (p.setTimestamp t).getPid = p.getPid
  ∧ (p.setTimestamp t).getDataSegmentId = p.getDataSegmentId
  ∧ (p.setTimestamp t).isMonitored = p.isMonitored
  ∧ (p.setTimestamp t).getSessionId = p.getSessionId
  ∧ (p.setTimestamp t).getName = p.getName :=
  ⟨rfl, rfl, rfl, rfl, rfl, rfl⟩

/-- C10: `sendViaIpcChannel` reports an error exactly when the underlying IPC
channel send fails, and any error it reports is the process-send error code at
level `MODERATE`; the embedding is a total function, matching the `noexcept`
contract. -/
theorem sendViaIpcChannel_error_iff_send_failed (p : Process) (sendSuccess : Bool) :
    ((p.sendViaIpcChannel sendSuccess).isSome = true ↔ sendSuccess = false)
  ∧ (p.sendViaIpcChannel sendSuccess).elim True
      (fun r => r.error = PoshError.kPOSH__ROUDI_PROCESS_SEND_VIA_IPC_CHANNEL_FAILED
        ∧ r.level = ErrorLevel.MODERATE) := by
  cases sendSuccess <;> simp [Process.sendViaIpcChannel, Option.elim]

end Iceoryx
